import Mathlib

/-!
Verification of the blend-search engines of the TFG-Alloy repository.

The repository holds two search scripts:
* `src/alloy_calc.py` — rational-mass search `main.dfs` over item subsets with
  mass-window, fraction-bound and reachability pruning, overshoot-weighted
  scoring and a scarcity tie-break;
* `src/TFG-Alloy.py` — integer-mass search `find_solutions.search_combo.backtrack`
  checking absolute per-metal mass against target-scaled integer bounds.

Python floats are modelled as rationals (`ℚ`), Python ints as `ℤ`/`ℕ`,
dictionaries read through `.get(k, default)` as total functions, and the float
value `inf` (used by the scarcity score) as `Option ℚ` with `none` standing for
infinity.  Fallible code (Python `ZeroDivisionError`) is modelled with `Option`.
-/

namespace Alloy

/-! ### Generic list utilities -/

/-- Stable insertion of `x` into `l`: `x` goes in front of the first element
`y` with `le x y`.  With a total transitive `le` this yields the unique stable
ascending sort, matching Python's `sorted`. -/
def insertOrd (le : α → α → Bool) (x : α) : List α → List α
  | [] => [x]
  | y :: ys => if le x y then x :: y :: ys else y :: insertOrd le x ys

/-- Stable insertion sort, the model of Python's stable `sorted`. -/
def isort (le : α → α → Bool) : List α → List α
  | [] => []
  | x :: xs => insertOrd le x (isort le xs)

/-- Model of Python's `itertools.combinations`: all length-`r` sublists of `l`
in lexicographic order of positions. -/
def combinations : ℕ → List α → List (List α)
  | 0, _ => [[]]
  | _ + 1, [] => []
  | r + 1, x :: xs => ((combinations r xs).map (fun t => x :: t)) ++ combinations (r + 1) xs

/-- Monadic concatenation: run `f` on each element left to right, abort on the
first `none` (a raised exception), otherwise concatenate the produced lists. -/
def collectO (f : β → Option (List γ)) : List β → Option (List γ)
  | [] => some []
  | b :: bs =>
    match f b with
    | none => none
    | some s =>
      match collectO f bs with
      | none => none
      | some rest => some (s ++ rest)

/-- The descending list `[n, n-1, ..., 0]`, the model of `range(n, -1, -1)`. -/
def descNat : ℕ → List ℕ
  | 0 => [0]
  | n + 1 => (n + 1) :: descNat n

/-- The ascending list `[0, 1, ..., u]` of integers, the model of
`range(0, u+1)` for `u ≥ 0`. -/
def ascRange (u : ℤ) : List ℤ :=
  (List.range (u.toNat + 1)).map (fun n => (n : ℤ))

/-- Dictionary read with default: the model of Python's `d.get(k, d0)` for a
dictionary represented as an association list. -/
def lookupD (l : List (String × ℚ)) (k : String) (d : ℚ) : ℚ :=
  match l.find? (fun p => p.1 = k) with
  | some p => p.2
  | none => d

/-! ### Extended rationals for the scarcity score

Python's `float('inf')` is modelled as `none`; a finite value `q` as `some q`.
Only non-negative additions and comparisons occur in the source. -/

/-- Addition with infinity absorbing, the model of float addition where `none`
is `inf`. -/
def qiAdd : Option ℚ → Option ℚ → Option ℚ
  | some a, some b => some (a + b)
  | _, _ => none

/-- Sum of a list of extended rationals starting from `0.0`. -/
def qiSum (l : List (Option ℚ)) : Option ℚ := l.foldr qiAdd (some 0)

/-- Comparison on extended rationals: everything is `≤ inf`, and `inf ≤ q`
fails for finite `q`. -/
def qiLe : Option ℚ → Option ℚ → Bool
  | _, none => true
  | none, some _ => false
  | some a, some b => decide (a ≤ b)

/-! ### alloy_calc.py — data model -/

/-- An `alloy_calc.py` item as produced by `load_items`: name, unit mass
(`mass_mb`), availability (`available`) and a component→fraction composition. -/
structure AItem where
  name : String
  mass : ℚ
  available : ℤ
  comp : List (String × ℚ)
deriving DecidableEq

/-- The record appended to `best_solutions` by `main.dfs` at a valid terminal
state (the `combo`/`counts`/`total_mass`/`percentages`/`diff`/`scarcity`/
`score` fields of the Python dict). -/
structure ASol where
  combo : List AItem
  counts : List ℕ
  total : ℚ
  perc : List (String × ℚ)
  diff : ℚ
  scarcity : Option ℚ
  score : ℚ
deriving DecidableEq

/-- The fixed terminal-check tolerance `1e-9` of `alloy_calc.py`. -/
def tol : ℚ := 1 / 1000000000

/-- The fixed pruning tolerance `1e-12` of `alloy_calc.py`. -/
def pruneEps : ℚ := 1 / 1000000000000

/-- `load_items` composition normalization: divide by the sum of the raw
fractions when that sum is positive, otherwise keep the composition as is. -/
def normalizeComp (comp : List (String × ℚ)) : List (String × ℚ) :=
  let total := (comp.map (fun p => p.2)).sum
  if total > 0 then comp.map (fun p => (p.1, p.2 / total)) else comp

/-- `sum(frac for key el)` of a composition: total fraction a single item's
composition assigns to component `k` (compositions loaded from JSON have
distinct keys, so this is the single entry's value). -/
def compSum (comp : List (String × ℚ)) (k : String) : ℚ :=
  (comp.map (fun p => if p.1 = k then p.2 else 0)).sum

/-- `rem_mass_from`: total mass obtainable from the not-yet-decided items at
full availability. -/
def remMass (l : List AItem) : ℚ :=
  (l.map (fun it => it.mass * (it.available : ℚ))).sum

/-- `rem_elem_from`: per-component mass obtainable from the not-yet-decided
items at full availability. -/
def remElem (l : List AItem) (k : String) : ℚ :=
  (l.map (fun it => it.mass * (it.available : ℚ) * compSum it.comp k)).sum

/-- Point update of a running per-component mass table:
`mass_by_element[k] = mass_by_element.get(k, 0.0) + v`. -/
def updQ (f : String → ℚ) (k : String) (v : ℚ) : String → ℚ :=
  fun x => if x = k then f x + v else f x

/-- Add `cnt` copies of an item's composition to the running per-component
mass table, one `updQ` per composition entry, as the Python loop does. -/
def bumpComp (f : String → ℚ) (mass : ℚ) (cnt : ℕ) : List (String × ℚ) → (String → ℚ)
  | [] => f
  | p :: ps => bumpComp (updQ f p.1 ((cnt : ℚ) * mass * p.2)) mass cnt ps

/-- The guarded update `if cnt > 0 and item['comp']: ...` of `main.dfs`. -/
def applyItem (f : String → ℚ) (it : AItem) (cnt : ℕ) : String → ℚ :=
  if 0 < cnt ∧ it.comp ≠ [] then bumpComp f it.mass cnt it.comp else f

/-- `compute_percentages`: component fractions of the accumulated masses at a
terminal state, one entry per tracked element. -/
def compute_percentages (f : String → ℚ) (total : ℚ) (elements : List String) :
    List (String × ℚ) :=
  elements.map (fun el => (el, f el / total))

/-- The scarcity score of `main.dfs`: `sum(cnt / available if available > 0
else float('inf'))` over the chosen positions. -/
def scarcityOf (combo : List AItem) (counts : List ℕ) : Option ℚ :=
  qiSum ((combo.zip counts).map
    (fun p => if p.1.available > 0 then some ((p.2 : ℚ) / (p.1.available : ℚ)) else none))

/-- The weighted score of `main.dfs`: with overshoot preference, distance is
halved at or above target and doubled below it; otherwise raw distance. -/
def scoreOf (pref : Bool) (target mass : ℚ) : ℚ :=
  let d := |mass - target|
  if pref then (if mass ≥ target then d * (1 / 2) else d * 2) else d

/-- Count range for the next item of `main.dfs`: at most `available`, at most
`int((MAX_TOTAL - curr_mass) // mass)` when the unit mass is positive, tried
from the largest count down to 0; empty when the bound is negative. -/
def countsFor (MAX mass : ℚ) (it : AItem) : List ℕ :=
  let maxByMass : ℤ := if it.mass > 0 then ⌊(MAX - mass) / it.mass⌋ else it.available
  let m := min it.available maxByMass
  if m < 0 then [] else descNat m.toNat

/-- The three-part prune block run at every entry of `main.dfs`: mass ceiling,
unreachable minimum total, and per-element achievable-fraction bounds (with
the `1e-12` slack and the `max_possible_total <= 0` guard). -/
def prunedA (B : List (String × ℚ × ℚ)) (MIN MAX : ℚ) (remaining : List AItem)
    (mass : ℚ) (mb : String → ℚ) : Bool :=
  decide (mass > MAX) ||
  decide (mass + remMass remaining < MIN) ||
  decide (mass + remMass remaining ≤ 0) ||
  B.any (fun b =>
    decide ((mb b.1 + remElem remaining b.1) / (mass + remMass remaining) + pruneEps < b.2.1) ||
    decide (mb b.1 / (mass + remMass remaining) - pruneEps > b.2.2))

/-- The terminal validity check and emission of `main.dfs` at `pos == n`:
mass window, positive mass, and per-element fraction bounds with the `1e-9`
tolerance; on success the solution record is built exactly as the source
does. -/
def emitA (B : List (String × ℚ × ℚ)) (E : List String) (MIN MAX target : ℚ)
    (pref : Bool) (combo : List AItem) (counts : List ℕ) (mass : ℚ)
    (mb : String → ℚ) : List ASol :=
  if mass < MIN ∨ mass > MAX then []
  else if mass ≤ 0 then []
  else
    let perc := compute_percentages mb mass E
    if B.any (fun b =>
        decide (lookupD perc b.1 0 < b.2.1 - tol) ||
        decide (lookupD perc b.1 0 > b.2.2 + tol)) then []
    else
      [{ combo := combo, counts := counts, total := mass, perc := perc,
         diff := |mass - target|, scarcity := scarcityOf combo counts,
         score := scoreOf pref target mass }]

/-- `main.dfs` of `alloy_calc.py`, recursing over the not-yet-decided suffix of
the (mass-sorted) combo; parameters fixed during one subset search are the
bound table `B`, the tracked element list `E`, the mass window `[MIN, MAX]`,
the target and the overshoot flag. -/
def dfs (B : List (String × ℚ × ℚ)) (E : List String) (MIN MAX target : ℚ)
    (pref : Bool) (combo : List AItem) :
    List AItem → List ℕ → ℚ → (String → ℚ) → List ASol
  | [], counts, mass, mb =>
    if prunedA B MIN MAX [] mass mb then []
    else emitA B E MIN MAX target pref combo counts mass mb
  | item :: rest, counts, mass, mb =>
    if prunedA B MIN MAX (item :: rest) mass mb then []
    else
      (countsFor MAX mass item).flatMap (fun cnt =>
        dfs B E MIN MAX target pref combo rest (counts ++ [cnt])
          (mass + (cnt : ℚ) * item.mass) (applyItem mb item cnt))

/-- String order used to model Python's `sorted` on element names. -/
def strLe (a b : String) : Bool := !decide (b < a)

/-- Descending-unit-mass order used by `sorted(combo, key=lambda i: -mass)`. -/
def massDescLe (a b : AItem) : Bool := decide (b.mass ≤ a.mass)

/-- `elements = sorted(list({e for e in COMPOSITION_BOUNDS.keys()}))`. -/
def elementsOf (B : List (String × ℚ × ℚ)) : List String :=
  isort strLe (B.map (fun b => b.1)).dedup

/-- The item filter of `alloy_calc.py`'s `main`: keep items whose composition
mentions at least one tracked component, falling back to the full list when
none does. -/
def alloyFiltered (items : List AItem) (B : List (String × ℚ × ℚ)) : List AItem :=
  let filtered := items.filter (fun it =>
    B.any (fun b => ((it.comp.find? (fun p => p.1 = b.1)).isSome : Bool)))
  if filtered.isEmpty then items else filtered

/-- Phase 1 of `alloy_calc.py`: all combinations of the filtered items of each
size `1 .. max_types`, in enumeration order. -/
def alloyEnumerated (items : List AItem) (B : List (String × ℚ × ℚ))
    (maxTypes : ℕ) : List (List AItem) :=
  (List.range maxTypes).flatMap (fun k => combinations (k + 1) (alloyFiltered items B))

/-- All solutions appended to `best_solutions` by `alloy_calc.py`'s `main`, in
emission order: each enumerated combo is sorted by descending unit mass and
searched by `dfs` from the empty assignment. -/
def alloySolutions (items : List AItem) (B : List (String × ℚ × ℚ))
    (target allowance : ℚ) (maxTypes : ℕ) (pref : Bool) : List ASol :=
  (alloyEnumerated items B maxTypes).flatMap (fun combo =>
    let cs := isort massDescLe combo
    dfs B (elementsOf B) (target - allowance) (target + allowance) target pref
      cs cs [] 0 (fun _ => 0))

/-- Sort key of `alloy_calc.py`: ascending `(score, scarcity)`. -/
def lexLe2 (a b : ASol) : Bool :=
  decide (a.score < b.score) || (decide (a.score = b.score) && qiLe a.scarcity b.scarcity)

/-- The ranked output of `alloy_calc.py`'s `main`: solutions sorted by
`(score, scarcity)` (stable), truncated to the top count, together with the
number of solutions found before truncation. -/
def alloySearch (items : List AItem) (B : List (String × ℚ × ℚ))
    (target allowance : ℚ) (maxTypes : ℕ) (pref : Bool) (top : ℕ) :
    List ASol × ℕ :=
  let sols := alloySolutions items B target allowance maxTypes pref
  ((isort lexLe2 sols).take top, sols.length)

/-! ### TFG-Alloy.py — data model -/

/-- A `TFG-Alloy.py` item tuple `(name, metal_symbol, mb_value, max_count)`. -/
structure TItem where
  name : String
  metal : String
  mb : ℤ
  maxCount : ℤ
deriving DecidableEq

/-- The record appended to `solutions` by `backtrack` at a valid terminal
state (the `combo`/`counts`/`total`/`pct`/`diff`/`abundance` fields used by
the ranking; `metal_totals` is recoverable from `combo` and `counts`). -/
structure TSol where
  combo : List TItem
  counts : List ℤ
  total : ℤ
  pct : List (String × ℚ)
  diff : ℤ
  abundance : ℚ
deriving DecidableEq

/-- Python `int()` on a rational: truncation toward zero. -/
def truncQ (q : ℚ) : ℤ := if q < 0 then -⌊-q⌋ else ⌊q⌋

/-- `min_req[m] = int(ranges[m][0] * target)`; 0 for untracked metals (the
source only reads it for tracked ones). -/
def minReq (R : List (String × ℚ × ℚ)) (target : ℤ) (m : String) : ℤ :=
  match R.find? (fun b => b.1 = m) with
  | some b => truncQ (b.2.1 * (target : ℚ))
  | none => 0

/-- `max_req.get(m, 0)` with `max_req[m] = int(ranges[m][1] * target)`. -/
def maxReq (R : List (String × ℚ × ℚ)) (target : ℤ) (m : String) : ℤ :=
  match R.find? (fun b => b.1 = m) with
  | some b => truncQ (b.2.2 * (target : ℚ))
  | none => 0

/-- Point update of the running `metal_totals` table. -/
def updI (f : String → ℤ) (k : String) (v : ℤ) : String → ℤ :=
  fun x => if x = k then f x + v else f x

/-- Maximum further mass a metal can receive from the undecided suffix, as
accumulated by the `max_possible_per_metal` prune loop. -/
def remMetal (l : List TItem) (m : String) : ℤ :=
  (l.map (fun it => if it.metal = m then it.maxCount * it.mb else 0)).sum

/-- `abundance = sum(current[j] / combo[j][3])`: Python true division with no
guard, so a chosen item with `max_count == 0` raises `ZeroDivisionError`,
modelled as `none`. -/
def abundanceOf : List TItem → List ℤ → Option ℚ
  | [], _ => some 0
  | _, [] => some 0
  | it :: is, c :: cs =>
    if it.maxCount = 0 then none
    else
      match abundanceOf is cs with
      | none => none
      | some s => some ((c : ℚ) / (it.maxCount : ℚ) + s)

/-- `find_solutions.search_combo.backtrack` of `TFG-Alloy.py`: terminal check
of absolute per-metal mass against `[min_req, max_req]`, reachability and
exceeded-maximum prunes, then counts `0 .. min(max_count, upper_by_metal)`
in ascending order.  `none` models an uncaught `ZeroDivisionError`. -/
def backtrack (R : List (String × ℚ × ℚ)) (target : ℤ) (combo : List TItem) :
    List TItem → List ℤ → (String → ℤ) → ℤ → Option (List TSol)
  | [], counts, mt, total =>
    if R.all (fun b =>
        decide (minReq R target b.1 ≤ mt b.1) && decide (mt b.1 ≤ maxReq R target b.1)) then
      match abundanceOf combo counts with
      | none => none
      | some ab =>
        some [{ combo := combo, counts := counts, total := total,
                pct := R.map (fun b =>
                  (b.1, if total > 0 then (mt b.1 : ℚ) / (total : ℚ) else 0)),
                diff := |total - target|, abundance := ab }]
    else some []
  | item :: rest, counts, mt, total =>
    if R.any (fun b =>
        decide (mt b.1 + remMetal (item :: rest) b.1 < minReq R target b.1)) then some []
    else if R.any (fun b => decide (mt b.1 > maxReq R target b.1)) then some []
    else if item.mb = 0 then none
    else
      let upper := min item.maxCount
        (Int.fdiv (maxReq R target item.metal - mt item.metal) item.mb)
      if upper < 0 then some []
      else
        collectO (fun c =>
          backtrack R target combo rest (counts ++ [c])
            (updI mt item.metal (c * item.mb)) (total + c * item.mb)) (ascRange upper)

/-- Subset coverage test of `find_solutions`: every metal named in `ranges`
must be the metal of some item of the combo. -/
def tfgCoversB (R : List (String × ℚ × ℚ)) (combo : List TItem) : Bool :=
  R.all (fun b => combo.any (fun it => it.metal = b.1))

/-- Phase 1 of `TFG-Alloy.py`: combinations of sizes 3 and 4 only, filtered by
the coverage test. -/
def tfgEnumerated (items : List TItem) (R : List (String × ℚ × ℚ)) :
    List (List TItem) :=
  (([3, 4] : List ℕ).flatMap (fun r => combinations r items)).filter (tfgCoversB R)

/-- All solutions appended by `find_solutions` across the enumerated combos,
in emission order; `none` models an uncaught `ZeroDivisionError`. -/
def tfgSolutionsOpt (items : List TItem) (target : ℤ) (R : List (String × ℚ × ℚ)) :
    Option (List TSol) :=
  collectO (fun combo => backtrack R target combo combo [] (fun _ => 0) 0)
    (tfgEnumerated items R)

/-- Sort key of `TFG-Alloy.py`: ascending
`(diff, abundance, len(combo), -total)`. -/
def lexLe4 (a b : TSol) : Bool :=
  decide (a.diff < b.diff) ||
  (decide (a.diff = b.diff) &&
    (decide (a.abundance < b.abundance) ||
      (decide (a.abundance = b.abundance) &&
        (decide (a.combo.length < b.combo.length) ||
          (decide (a.combo.length = b.combo.length) && decide (-a.total ≤ -b.total))))))

/-- `find_solutions` of `TFG-Alloy.py`: the ranked prefix of the sorted
solution list together with the count of all solutions found. -/
def find_solutions (items : List TItem) (target : ℤ) (R : List (String × ℚ × ℚ))
    (topN : ℕ) : Option (List TSol × ℕ) :=
  match tfgSolutionsOpt items target R with
  | none => none
  | some sols => some ((isort lexLe4 sols).take topN, sols.length)

/-! ### Fuel-indexed variants of the recursions -/

/-- Monadic version of `List.flatMap` over a fuel-indexed body; `none` is
propagated fuel exhaustion. -/
def collectF (f : β → Option (List γ)) : List β → Option (List γ)
  | [] => some []
  | b :: bs =>
    match f b with
    | none => none
    | some s =>
      match collectF f bs with
      | none => none
      | some rest => some (s ++ rest)

/-- Fuel-indexed `main.dfs`: identical branching, but each recursive step
consumes one unit of fuel and exhaustion yields `none`. -/
def dfsFuel (B : List (String × ℚ × ℚ)) (E : List String) (MIN MAX target : ℚ)
    (pref : Bool) (combo : List AItem) :
    ℕ → List AItem → List ℕ → ℚ → (String → ℚ) → Option (List ASol)
  | 0, _, _, _, _ => none
  | fuel + 1, rem, counts, mass, mb =>
    match rem with
    | [] =>
      some (if prunedA B MIN MAX [] mass mb then []
            else emitA B E MIN MAX target pref combo counts mass mb)
    | item :: rest =>
      if prunedA B MIN MAX (item :: rest) mass mb then some []
      else
        collectF (fun (cnt : ℕ) =>
          dfsFuel B E MIN MAX target pref combo fuel rest (counts ++ [cnt])
            (mass + (cnt : ℚ) * item.mass) (applyItem mb item cnt))
          (countsFor MAX mass item)

/-- Sequencing for the fuel-indexed `backtrack`: outer `none` aborts on fuel
exhaustion, inner `none` aborts on the modelled exception. -/
def collectFF (f : β → Option (Option (List γ))) : List β → Option (Option (List γ))
  | [] => some (some [])
  | c :: cs =>
    match f c with
    | none => none
    | some none => some none
    | some (some s) =>
      match collectFF f cs with
      | none => none
      | some none => some none
      | some (some rest) => some (some (s ++ rest))

/-- Fuel-indexed `backtrack` of `TFG-Alloy.py`: outer `none` is fuel
exhaustion, the inner option is the source's `ZeroDivisionError` channel. -/
def backtrackFuel (R : List (String × ℚ × ℚ)) (target : ℤ) (combo : List TItem) :
    ℕ → List TItem → List ℤ → (String → ℤ) → ℤ → Option (Option (List TSol))
  | 0, _, _, _, _ => none
  | fuel + 1, rem, counts, mt, total =>
    match rem with
    | [] => some (backtrack R target combo [] counts mt total)
    | item :: rest =>
      if R.any (fun b =>
          decide (mt b.1 + remMetal (item :: rest) b.1 < minReq R target b.1)) then some (some [])
      else if R.any (fun b => decide (mt b.1 > maxReq R target b.1)) then some (some [])
      else if item.mb = 0 then some none
      else
        let upper := min item.maxCount
          (Int.fdiv (maxReq R target item.metal - mt item.metal) item.mb)
        if upper < 0 then some (some [])
        else
          collectFF (fun (c : ℤ) =>
            backtrackFuel R target combo fuel rest (counts ++ [c])
              (updI mt item.metal (c * item.mb)) (total + c * item.mb)) (ascRange upper)

/-! ### The terminal-state invariant predicate -/

/-- Everything the terminal check of `main.dfs` guarantees about an emitted
solution record: mass window, positive mass, per-element fraction bounds with
the `1e-9` tolerance, and the stored `diff`/`scarcity`/`score`/`percentages`
fields being computed by the source formulas. -/
def goodSol (B : List (String × ℚ × ℚ)) (E : List String) (MIN MAX target : ℚ)
    (pref : Bool) (s : ASol) : Prop :=
  MIN ≤ s.total ∧ s.total ≤ MAX ∧ 0 < s.total ∧
  (∀ b ∈ B, b.2.1 - tol ≤ lookupD s.perc b.1 0 ∧ lookupD s.perc b.1 0 ≤ b.2.2 + tol) ∧
  s.diff = |s.total - target| ∧
  s.scarcity = scarcityOf s.combo s.counts ∧
  s.score = scoreOf pref target s.total ∧
  ∃ mb : String → ℚ, s.perc = compute_percentages mb s.total E

/-! ### Claim-side definitions and concrete fixtures -/

/-- Strict comparison on extended rationals (finite values are below `inf`). -/
def qiLt : Option ℚ → Option ℚ → Bool
  | none, _ => false
  | some _, none => true
  | some a, some b => decide (a < b)

/-- The ranking key claimed by the specification for the unified engine:
ascending `(weighted_score, scarcity_score, combo_size, -total_mass)`,
written here from the spec's words to compare with the code's key. -/
def claimKeyLe (a b : ASol) : Bool :=
  decide (a.score < b.score) ||
  (decide (a.score = b.score) &&
    (qiLt a.scarcity b.scarcity ||
      (decide (a.scarcity = b.scarcity) &&
        (decide (a.combo.length < b.combo.length) ||
          (decide (a.combo.length = b.combo.length) && decide (-a.total ≤ -b.total))))))

/-- Adjacent-pairs order check: `true` iff the list is ascending under `le`. -/
def pairwiseLeB (le : α → α → Bool) : List α → Bool
  | [] => true
  | [_] => true
  | a :: b :: rest => le a b && pairwiseLeB le (b :: rest)

/-- Scarcity as claim C6 words it: `count / item.max_count` summed over chosen
positions, with the infinite penalty only when `max_count == 0` and
`count > 0` (the `0 / 0` corner reads as the rational `0`). -/
def claimScarcity (combo : List AItem) (counts : List ℕ) : Option ℚ :=
  qiSum ((combo.zip counts).map (fun p =>
    if p.1.available = 0 ∧ 0 < p.2 then none
    else some ((p.2 : ℚ) / (p.1.available : ℚ))))

/-- Single-component copper item, unit mass 100, one available. -/
def itemCu100 : AItem := ⟨"X", 100, 1, [("Cu", 1)]⟩

/-- Permissive copper bound table. -/
def aBounds01 : List (String × ℚ × ℚ) := [("Cu", 0, 1)]

/-- Three copper items for the TFG search fixtures. -/
def tItems3 : List TItem :=
  [⟨"A", "Cu", 10, 1⟩, ⟨"B", "Cu", 20, 1⟩, ⟨"C", "Cu", 30, 1⟩]

/-- TFG bound table: copper at most half of the blend. -/
def tRanges : List (String × ℚ × ℚ) := [("Cu", 0, 1/2)]

/-- Two items with equal weighted score and scarcity but different totals. -/
def aItemsC4 : List AItem := [⟨"A", 99, 1, [("Cu", 1)]⟩, ⟨"B", 104, 1, [("Cu", 1)]⟩]

/-- Items giving one undershooting and one overshooting blend at raw
distance 5. -/
def aItemsC5 : List AItem := [⟨"A", 95, 1, [("Cu", 1)]⟩, ⟨"B", 105, 1, [("Cu", 1)]⟩]

/-- A normal item together with a zero-availability item. -/
def aItemsC6 : List AItem := [⟨"P", 100, 1, [("Cu", 1)]⟩, ⟨"Z", 50, 0, [("Cu", 1)]⟩]

/-- A copper item for the subset-enumeration fixtures. -/
def cuItemX : AItem := ⟨"CuItem", 10, 5, [("Cu", 1)]⟩

/-- A filler item with empty composition. -/
def fillerItemX : AItem := ⟨"F", 10, 5, []⟩

/-- Copper bound with positive minimum fraction. -/
def cBoundsX : List (String × ℚ × ℚ) := [("Cu", 1/5, 1)]

/-- A malformed bound table with `min > max`. -/
def badBounds : List (String × ℚ × ℚ) := [("Cu", 3/4, 1/4)]

/-- A bound on a component absent from every fixture item. -/
def zincBounds : List (String × ℚ × ℚ) := [("Zn", 1/2, 1)]

/-- A TFG bound on a metal absent from every fixture item. -/
def biRanges : List (String × ℚ × ℚ) := [("Bi", 1/2, 1)]

/-- An unsatisfiable TFG catalog: copper and zinc cannot both reach 60 % of
the total, and the zero-availability copper item sits in the only size-3
combo. -/
def tItemsC9 : List TItem := [⟨"a", "Cu", 1, 10⟩, ⟨"b", "Zn", 1, 10⟩, ⟨"c", "Cu", 1, 0⟩]

/-- Bound table demanding 60 % copper and 60 % zinc simultaneously. -/
def rangesC9 : List (String × ℚ × ℚ) := [("Cu", 3/5, 1), ("Zn", 3/5, 1)]

/-- Every count assignment over the catalog respecting each item's
availability (counts `0 .. max_count`); subsets of the catalog are the
assignments that put 0 on the unchosen items. -/
def allCounts : List TItem → List (List ℤ)
  | [] => [[]]
  | it :: rest => (ascRange it.maxCount).flatMap (fun c => (allCounts rest).map (fun cs => c :: cs))

/-- Total mass of a count assignment over the catalog. -/
def totalMassOf (items : List TItem) (counts : List ℤ) : ℤ :=
  ((items.zip counts).map (fun p => p.2 * p.1.mb)).sum

/-- Accumulated mass of one metal under a count assignment. -/
def metalMassOf (items : List TItem) (counts : List ℤ) (m : String) : ℤ :=
  ((items.zip counts).map (fun p => if p.1.metal = m then p.2 * p.1.mb else 0)).sum

/-- Satisfiability of the bound table by a count assignment, written from the
spec's Blend invariant: positive total mass and every tracked metal's
fraction of the total inside its bound, read generously with the `1e-9`
tolerance. -/
def claimSatisfiesT (items : List TItem) (R : List (String × ℚ × ℚ))
    (counts : List ℤ) : Bool :=
  decide (0 < totalMassOf items counts) &&
  R.all (fun b =>
    decide (b.2.1 - tol ≤ (metalMassOf items counts b.1 : ℚ) / (totalMassOf items counts : ℚ)) &&
    decide ((metalMassOf items counts b.1 : ℚ) / (totalMassOf items counts : ℚ) ≤ b.2.2 + tol))

/-- The solution emitted for `itemCu100` alone at target 100. -/
def solCu100 : ASol :=
  ⟨[itemCu100], [1], 100, [("Cu", 1)], 0, some 1, 0⟩

/-- The overshooting solution of the `aItemsC5` run. -/
def solC5over : ASol :=
  ⟨[⟨"B", 105, 1, [("Cu", 1)]⟩], [1], 105, [("Cu", 1)], 5, some 1, 5/2⟩

/-- The undershooting solution of the `aItemsC5` run. -/
def solC5under : ASol :=
  ⟨[⟨"A", 95, 1, [("Cu", 1)]⟩], [1], 95, [("Cu", 1)], 5, some 1, 10⟩

/-! ### Sorting lemmas -/

theorem insertOrd_perm (le : α → α → Bool) (x : α) (l : List α) :
    List.Perm (insertOrd le x l) (x :: l) := by
  induction l with
  | nil => exact List.Perm.refl _
  | cons y ys ih =>
    simp only [insertOrd]
    split
    · exact List.Perm.refl _
    · exact List.Perm.trans (List.Perm.cons y ih) (List.Perm.swap x y ys)

theorem isort_perm (le : α → α → Bool) (l : List α) :
    List.Perm (isort le l) l := by
  induction l with
  | nil => exact List.Perm.refl _
  | cons x xs ih =>
    exact List.Perm.trans (insertOrd_perm le x (isort le xs)) (List.Perm.cons x ih)

theorem insertOrd_pairwise (le : α → α → Bool)
    (htot : ∀ a b, le a b = true ∨ le b a = true)
    (htrans : ∀ a b c, le a b = true → le b c = true → le a c = true)
    (x : α) (l : List α) (hl : l.Pairwise (fun a b => le a b = true)) :
    (insertOrd le x l).Pairwise (fun a b => le a b = true) := by
  induction l with
  | nil => simp [insertOrd]
  | cons y ys ih =>
    rcases List.pairwise_cons.1 hl with ⟨hy, hys⟩
    simp only [insertOrd]
    split
    · rename_i hxy
      refine List.pairwise_cons.2 ⟨?_, hl⟩
      intro z hz
      rcases List.mem_cons.1 hz with rfl | hz
      · exact hxy
      · exact htrans x y z hxy (hy z hz)
    · rename_i hxy
      refine List.pairwise_cons.2 ⟨?_, ih hys⟩
      intro z hz
      have hz' : z ∈ x :: ys := (insertOrd_perm le x ys).mem_iff.1 hz
      rcases List.mem_cons.1 hz' with rfl | hz'
      · rcases htot z y with h | h
        · exact absurd h hxy
        · exact h
      · exact hy z hz'

theorem isort_pairwise (le : α → α → Bool)
    (htot : ∀ a b, le a b = true ∨ le b a = true)
    (htrans : ∀ a b c, le a b = true → le b c = true → le a c = true)
    (l : List α) : (isort le l).Pairwise (fun a b => le a b = true) := by
  induction l with
  | nil => simp [isort]
  | cons x xs ih => exact insertOrd_pairwise le htot htrans x (isort le xs) ih

/-! ### Totality and transitivity of the sort keys -/

theorem qiLe_total (a b : Option ℚ) : qiLe a b = true ∨ qiLe b a = true := by
  cases a with
  | none => cases b with
    | none => left; rfl
    | some q => right; rfl
  | some p => cases b with
    | none => left; rfl
    | some q =>
      simp only [qiLe, decide_eq_true_eq]
      exact le_total p q

theorem qiLe_trans (a b c : Option ℚ) (h1 : qiLe a b = true) (h2 : qiLe b c = true) :
    qiLe a c = true := by
  cases a <;> cases b <;> cases c <;> simp_all [qiLe] <;> exact le_trans h1 h2

theorem lexB_total {β : Type} [LinearOrder β] (k : α → β) (rest : α → α → Bool)
    (h : ∀ a b, rest a b = true ∨ rest b a = true) (a b : α) :
    (decide (k a < k b) || (decide (k a = k b) && rest a b)) = true ∨
    (decide (k b < k a) || (decide (k b = k a) && rest b a)) = true := by
  simp only [Bool.or_eq_true, Bool.and_eq_true, decide_eq_true_eq]
  rcases lt_trichotomy (k a) (k b) with hlt | heq | hgt
  · exact Or.inl (Or.inl hlt)
  · rcases h a b with hr | hr
    · exact Or.inl (Or.inr ⟨heq, hr⟩)
    · exact Or.inr (Or.inr ⟨heq.symm, hr⟩)
  · exact Or.inr (Or.inl hgt)

theorem lexB_trans {β : Type} [LinearOrder β] (k : α → β) (rest : α → α → Bool)
    (h : ∀ a b c, rest a b = true → rest b c = true → rest a c = true) (a b c : α)
    (h1 : (decide (k a < k b) || (decide (k a = k b) && rest a b)) = true)
    (h2 : (decide (k b < k c) || (decide (k b = k c) && rest b c)) = true) :
    (decide (k a < k c) || (decide (k a = k c) && rest a c)) = true := by
  simp only [Bool.or_eq_true, Bool.and_eq_true, decide_eq_true_eq] at h1 h2 ⊢
  rcases h1 with h1 | ⟨h1e, h1r⟩
  · rcases h2 with h2 | ⟨h2e, h2r⟩
    · exact Or.inl (lt_trans h1 h2)
    · exact Or.inl (h2e ▸ h1)
  · rcases h2 with h2 | ⟨h2e, h2r⟩
    · exact Or.inl (h1e ▸ h2)
    · exact Or.inr ⟨h1e.trans h2e, h a b c h1r h2r⟩

theorem lexLe2_total (a b : ASol) : lexLe2 a b = true ∨ lexLe2 b a = true := by
  unfold lexLe2
  exact lexB_total (fun s => s.score) (fun s t => qiLe s.scarcity t.scarcity)
    (fun s t => qiLe_total s.scarcity t.scarcity) a b

theorem lexLe2_trans (a b c : ASol) (h1 : lexLe2 a b = true) (h2 : lexLe2 b c = true) :
    lexLe2 a c = true := by
  unfold lexLe2 at h1 h2 ⊢
  exact lexB_trans (fun s => s.score) (fun s t => qiLe s.scarcity t.scarcity)
    (fun s t u => qiLe_trans s.scarcity t.scarcity u.scarcity) a b c h1 h2

theorem lexLe4_total (a b : TSol) : lexLe4 a b = true ∨ lexLe4 b a = true := by
  unfold lexLe4
  refine lexB_total (fun s => s.diff)
    (fun s t => decide (s.abundance < t.abundance) ||
      (decide (s.abundance = t.abundance) &&
        (decide (s.combo.length < t.combo.length) ||
          (decide (s.combo.length = t.combo.length) && decide (-s.total ≤ -t.total)))))
    (fun s t => ?_) a b
  refine lexB_total (fun u => u.abundance)
    (fun u v => decide (u.combo.length < v.combo.length) ||
      (decide (u.combo.length = v.combo.length) && decide (-u.total ≤ -v.total)))
    (fun u v => ?_) s t
  refine lexB_total (fun w => w.combo.length) (fun w z => decide (-w.total ≤ -z.total))
    (fun w z => ?_) u v
  simp only [decide_eq_true_eq]
  exact le_total (-w.total) (-z.total)

theorem lexLe4_trans (a b c : TSol) (h1 : lexLe4 a b = true) (h2 : lexLe4 b c = true) :
    lexLe4 a c = true := by
  unfold lexLe4 at h1 h2 ⊢
  refine lexB_trans (fun s => s.diff)
    (fun s t => decide (s.abundance < t.abundance) ||
      (decide (s.abundance = t.abundance) &&
        (decide (s.combo.length < t.combo.length) ||
          (decide (s.combo.length = t.combo.length) && decide (-s.total ≤ -t.total)))))
    (fun s t u => ?_) a b c h1 h2
  refine lexB_trans (fun v => v.abundance)
    (fun v w => decide (v.combo.length < w.combo.length) ||
      (decide (v.combo.length = w.combo.length) && decide (-v.total ≤ -w.total)))
    (fun v w z => ?_) s t u
  refine lexB_trans (fun x => x.combo.length) (fun x y => decide (-x.total ≤ -y.total))
    (fun x y z' => ?_) v w z
  simp only [decide_eq_true_eq]
  exact le_trans

/-! ### Combinations membership -/

theorem mem_combinations : ∀ (l : List α) (r : ℕ) (sub : List α),
    sub ∈ combinations r l ↔ sub.Sublist l ∧ sub.length = r := by
  intro l
  induction l with
  | nil =>
    intro r sub
    cases r with
    | zero =>
      simp only [combinations, List.mem_singleton]
      constructor
      · rintro rfl; exact ⟨List.Sublist.refl [], rfl⟩
      · rintro ⟨hs, hl⟩
        exact List.length_eq_zero.1 hl
    | succ r =>
      simp only [combinations, List.not_mem_nil, false_iff, not_and]
      intro hs
      rw [List.sublist_nil.1 hs]
      exact fun h => Nat.succ_ne_zero r h.symm
  | cons x xs ih =>
    intro r sub
    cases r with
    | zero =>
      simp only [combinations, List.mem_singleton]
      constructor
      · rintro rfl; exact ⟨List.nil_sublist _, rfl⟩
      · rintro ⟨hs, hl⟩
        exact List.length_eq_zero.1 hl
    | succ r =>
      simp only [combinations, List.mem_append, List.mem_map, ih]
      constructor
      · rintro (⟨t, ⟨hs, hl⟩, rfl⟩ | ⟨hs, hl⟩)
        · exact ⟨List.Sublist.cons₂ x hs, by simp [hl]⟩
        · exact ⟨hs.cons x, hl⟩
      · rintro ⟨hs, hl⟩
        cases hs with
        | cons _ h => exact Or.inr ⟨h, hl⟩
        | cons₂ _ h =>
          exact Or.inl ⟨_, ⟨h, by simpa using hl⟩, rfl⟩

/-! ### The terminal-state invariant of every emitted alloy_calc solution -/

theorem emitA_good {B : List (String × ℚ × ℚ)} {E : List String}
    {MIN MAX target : ℚ} {pref : Bool} {combo : List AItem} {counts : List ℕ}
    {mass : ℚ} {mb : String → ℚ} {s : ASol}
    (h : s ∈ emitA B E MIN MAX target pref combo counts mass mb) :
    goodSol B E MIN MAX target pref s := by
  simp only [emitA] at h
  split at h
  · exact absurd h (List.not_mem_nil s)
  split at h
  · exact absurd h (List.not_mem_nil s)
  split at h
  · exact absurd h (List.not_mem_nil s)
  rename_i hwin hpos hany
  rcases List.mem_singleton.1 h with rfl
  push_neg at hwin
  have hb : ∀ b ∈ B, ¬(decide (lookupD (compute_percentages mb mass E) b.1 0 < b.2.1 - tol) ||
      decide (lookupD (compute_percentages mb mass E) b.1 0 > b.2.2 + tol)) = true := by
    intro b hbB
    intro hcontra
    exact hany (List.any_eq_true.2 ⟨b, hbB, hcontra⟩)
  refine ⟨hwin.1, hwin.2, lt_of_not_le hpos, ?_, rfl, rfl, rfl, mb, rfl⟩
  intro b hbB
  have := hb b hbB
  simp only [Bool.or_eq_true, decide_eq_true_eq, not_or] at this
  exact ⟨le_of_not_lt this.1, le_of_not_lt this.2⟩

theorem dfs_good {B : List (String × ℚ × ℚ)} {E : List String}
    {MIN MAX target : ℚ} {pref : Bool} {combo : List AItem} :
    ∀ (rem : List AItem) (counts : List ℕ) (mass : ℚ) (mb : String → ℚ) (s : ASol),
      s ∈ dfs B E MIN MAX target pref combo rem counts mass mb →
      goodSol B E MIN MAX target pref s := by
  intro rem
  induction rem with
  | nil =>
    intro counts mass mb s h
    simp only [dfs] at h
    split at h
    · exact absurd h (List.not_mem_nil s)
    · exact emitA_good h
  | cons item rest ih =>
    intro counts mass mb s h
    simp only [dfs] at h
    split at h
    · exact absurd h (List.not_mem_nil s)
    · rcases List.mem_flatMap.1 h with ⟨cnt, _, hmem⟩
      exact ih _ _ _ s hmem

theorem alloySolutions_good {items : List AItem} {B : List (String × ℚ × ℚ)}
    {target allowance : ℚ} {maxTypes : ℕ} {pref : Bool} {s : ASol}
    (h : s ∈ alloySolutions items B target allowance maxTypes pref) :
    goodSol B (elementsOf B) (target - allowance) (target + allowance) target pref s := by
  rcases List.mem_flatMap.1 h with ⟨combo, _, hmem⟩
  exact dfs_good _ _ _ _ s hmem

/-! ### Components absent from every item stay at zero accumulated mass -/

theorem emitA_perc {B : List (String × ℚ × ℚ)} {E : List String}
    {MIN MAX target : ℚ} {pref : Bool} {combo : List AItem} {counts : List ℕ}
    {mass : ℚ} {mb : String → ℚ} {s : ASol}
    (h : s ∈ emitA B E MIN MAX target pref combo counts mass mb) :
    s.perc = compute_percentages mb mass E := by
  simp only [emitA] at h
  split at h
  · exact absurd h (List.not_mem_nil s)
  split at h
  · exact absurd h (List.not_mem_nil s)
  split at h
  · exact absurd h (List.not_mem_nil s)
  rcases List.mem_singleton.1 h with rfl
  rfl

theorem bumpComp_ne {f : String → ℚ} {mass : ℚ} {cnt : ℕ}
    {comp : List (String × ℚ)} {c : String}
    (h : ∀ p ∈ comp, p.1 ≠ c) : bumpComp f mass cnt comp c = f c := by
  induction comp generalizing f with
  | nil => rfl
  | cons p ps ih =>
    simp only [bumpComp]
    rw [ih (fun q hq => h q (List.mem_cons_of_mem p hq))]
    simp only [updQ]
    rw [if_neg (fun hc => h p (List.mem_cons_self p ps) hc.symm)]

theorem applyItem_ne {f : String → ℚ} {it : AItem} {cnt : ℕ} {c : String}
    (h : ∀ p ∈ it.comp, p.1 ≠ c) : applyItem f it cnt c = f c := by
  unfold applyItem
  split
  · exact bumpComp_ne h
  · rfl

theorem lookupD_map_zero {E : List String} {g : String → ℚ} {c : String}
    (h : g c = 0) : lookupD (E.map (fun el => (el, g el))) c 0 = 0 := by
  induction E with
  | nil => rfl
  | cons el E' ih =>
    by_cases hc : el = c
    · subst hc; simp [lookupD, List.find?, h]
    · simpa [lookupD, List.find?, hc] using ih

theorem dfs_perc_zero {B : List (String × ℚ × ℚ)} {E : List String}
    {MIN MAX target : ℚ} {pref : Bool} {combo : List AItem} {c : String} :
    ∀ (rem : List AItem) (counts : List ℕ) (mass : ℚ) (mb : String → ℚ) (s : ASol),
      (∀ it ∈ rem, ∀ p ∈ it.comp, p.1 ≠ c) → mb c = 0 →
      s ∈ dfs B E MIN MAX target pref combo rem counts mass mb →
      lookupD s.perc c 0 = 0 := by
  intro rem
  induction rem with
  | nil =>
    intro counts mass mb s hrem hmb h
    simp only [dfs] at h
    split at h
    · exact absurd h (List.not_mem_nil s)
    · rw [emitA_perc h]
      unfold compute_percentages
      exact lookupD_map_zero (by rw [hmb]; simp)
  | cons item rest ih =>
    intro counts mass mb s hrem hmb h
    simp only [dfs] at h
    split at h
    · exact absurd h (List.not_mem_nil s)
    · rcases List.mem_flatMap.1 h with ⟨cnt, _, hmem⟩
      refine ih _ _ _ s (fun it hit => hrem it (List.mem_cons_of_mem item hit)) ?_ hmem
      rw [applyItem_ne (hrem item (List.mem_cons_self item rest))]
      exact hmb

/-! ### Fuel-indexed variants: the recursion terminates -/

theorem collectF_eq {f : β → Option (List γ)} {g : β → List γ} :
    ∀ l : List β, (∀ b ∈ l, f b = some (g b)) → collectF f l = some (l.flatMap g) := by
  intro l
  induction l with
  | nil => intro _; rfl
  | cons b bs ih =>
    intro h
    simp only [collectF, h b (List.mem_cons_self b bs),
      ih (fun x hx => h x (List.mem_cons_of_mem b hx)), List.flatMap_cons]

theorem dfsFuel_eq {B : List (String × ℚ × ℚ)} {E : List String}
    {MIN MAX target : ℚ} {pref : Bool} {combo : List AItem} :
    ∀ (rem : List AItem) (fuel : ℕ) (counts : List ℕ) (mass : ℚ) (mb : String → ℚ),
      rem.length < fuel →
      dfsFuel B E MIN MAX target pref combo fuel rem counts mass mb
        = some (dfs B E MIN MAX target pref combo rem counts mass mb) := by
  intro rem
  induction rem with
  | nil =>
    intro fuel counts mass mb hf
    match fuel, hf with
    | f + 1, _ => simp only [dfsFuel, dfs]
  | cons item rest ih =>
    intro fuel counts mass mb hf
    match fuel, hf with
    | f + 1, hf =>
      have hrest : rest.length < f := Nat.lt_of_succ_lt_succ hf
      simp only [dfsFuel, dfs]
      split
      · rfl
      · exact collectF_eq _ (fun cnt _ => ih f _ _ _ hrest)

theorem collectFF_eq {f : β → Option (Option (List γ))} {g : β → Option (List γ)} :
    ∀ l : List β, (∀ c ∈ l, f c = some (g c)) →
      collectFF f l = some (collectO g l) := by
  intro l
  induction l with
  | nil => intro _; rfl
  | cons c cs ih =>
    intro h
    have hc := h c (List.mem_cons_self c cs)
    have hcs := ih (fun x hx => h x (List.mem_cons_of_mem c hx))
    simp only [collectFF, collectO, hc, hcs]
    cases g c with
    | none => rfl
    | some s =>
      cases collectO g cs with
      | none => rfl
      | some rest => rfl

theorem backtrackFuel_eq {R : List (String × ℚ × ℚ)} {target : ℤ} {combo : List TItem} :
    ∀ (rem : List TItem) (fuel : ℕ) (counts : List ℤ) (mt : String → ℤ) (total : ℤ),
      rem.length < fuel →
      backtrackFuel R target combo fuel rem counts mt total
        = some (backtrack R target combo rem counts mt total) := by
  intro rem
  induction rem with
  | nil =>
    intro fuel counts mt total hf
    match fuel, hf with
    | f + 1, _ => simp only [backtrackFuel]
  | cons item rest ih =>
    intro fuel counts mt total hf
    match fuel, hf with
    | f + 1, hf =>
      have hrest : rest.length < f := Nat.lt_of_succ_lt_succ hf
      simp only [backtrackFuel, backtrack]
      split
      · rfl
      split
      · rfl
      split
      · rfl
      split
      · rfl
      · exact collectFF_eq _ (fun c _ => ih f _ _ _ hrest)

/-! ### Claim theorems -/

theorem alloyFiltered_subset {items : List AItem} {B : List (String × ℚ × ℚ)}
    {it : AItem} (h : it ∈ alloyFiltered items B) : it ∈ items := by
  simp only [alloyFiltered] at h
  split at h
  · exact h
  · exact (List.mem_filter.1 h).1

/-- C1 (amended): every Blend emitted by the `alloy_calc.py` search has, for
every entry of the bound table, its stored component fraction within
`[min_frac - 1e-9, max_frac + 1e-9]`. -/
theorem c1_bound_satisfaction
    (items : List AItem) (B : List (String × ℚ × ℚ)) (target allowance : ℚ)
    (maxTypes : ℕ) (pref : Bool) (s : ASol) (b : String × ℚ × ℚ)
    (hs : s ∈ alloySolutions items B target allowance maxTypes pref) (hb : b ∈ B) :
    b.2.1 - tol ≤ lookupD s.perc b.1 0 ∧ lookupD s.perc b.1 0 ≤ b.2.2 + tol :=
  (alloySolutions_good hs).2.2.2.1 b hb

/-- C2 (amended): every Blend emitted by the `alloy_calc.py` search has its
total mass inside `[target - allowance, target + allowance]`. -/
theorem c2_mass_window
    (items : List AItem) (B : List (String × ℚ × ℚ)) (target allowance : ℚ)
    (maxTypes : ℕ) (pref : Bool) (s : ASol)
    (hs : s ∈ alloySolutions items B target allowance maxTypes pref) :
    target - allowance ≤ s.total ∧ s.total ≤ target + allowance :=
  ⟨(alloySolutions_good hs).1, (alloySolutions_good hs).2.1⟩

/-- C5: with overshoot preference enabled, a blend at or above target scores
half its raw distance, a blend below target scores double its raw distance,
and at equal raw distance the overshooting blend ranks strictly ahead of the
undershooting one under the `(score, scarcity)` order. -/
theorem c5_overshoot_weighting
    (items : List AItem) (B : List (String × ℚ × ℚ)) (target allowance : ℚ)
    (maxTypes : ℕ) (s₁ s₂ : ASol)
    (h1 : s₁ ∈ alloySolutions items B target allowance maxTypes true)
    (h2 : s₂ ∈ alloySolutions items B target allowance maxTypes true)
    (hov : target ≤ s₁.total) (hun : s₂.total < target)
    (heq : |s₁.total - target| = |s₂.total - target|) :
    s₁.score = |s₁.total - target| * (1/2) ∧ s₂.score = |s₂.total - target| * 2 ∧
    s₁.score < s₂.score ∧ lexLe2 s₁ s₂ = true ∧ lexLe2 s₂ s₁ = false := by
  have hs1 : s₁.score = |s₁.total - target| * (1/2) := by
    rw [(alloySolutions_good h1).2.2.2.2.2.2.1]
    unfold scoreOf
    rw [if_pos rfl, if_pos hov]
  have hs2 : s₂.score = |s₂.total - target| * 2 := by
    rw [(alloySolutions_good h2).2.2.2.2.2.2.1]
    unfold scoreOf
    rw [if_pos rfl, if_neg (not_le.2 hun)]
  have hdpos : 0 < |s₂.total - target| :=
    abs_pos.2 (sub_ne_zero.2 (ne_of_lt hun))
  have hlt : s₁.score < s₂.score := by
    rw [hs1, hs2, heq]
    nlinarith [hdpos]
  refine ⟨hs1, hs2, hlt, ?_, ?_⟩
  · unfold lexLe2
    rw [decide_eq_true hlt]
    rfl
  · unfold lexLe2
    rw [decide_eq_false (not_lt.2 (le_of_lt hlt)), decide_eq_false (ne_of_gt hlt)]
    rfl

/-- C6 (amended): every Blend emitted by the `alloy_calc.py` search stores as
scarcity exactly `sum(count / available if available > 0 else inf)` over its
chosen positions — a position with `available ≤ 0` contributes the infinite
penalty regardless of its count — and this is always well defined. -/
theorem c6_scarcity_definition
    (items : List AItem) (B : List (String × ℚ × ℚ)) (target allowance : ℚ)
    (maxTypes : ℕ) (pref : Bool) (s : ASol)
    (hs : s ∈ alloySolutions items B target allowance maxTypes pref) :
    s.scarcity = scarcityOf s.combo s.counts :=
  (alloySolutions_good hs).2.2.2.2.2.1

/-- C7 (amended): every Blend emitted by the `alloy_calc.py` search has
strictly positive total mass — the all-zero assignment is rejected at the
terminal check, so the fraction computation never divides by zero. -/
theorem c7_zero_mass_rejection
    (items : List AItem) (B : List (String × ℚ × ℚ)) (target allowance : ℚ)
    (maxTypes : ℕ) (pref : Bool) (s : ASol)
    (hs : s ∈ alloySolutions items B target allowance maxTypes pref) :
    0 < s.total :=
  (alloySolutions_good hs).2.2.1

/-- C3 (amended): `alloy_calc.py` runs count assignment for every subset of
size `1 .. max_types` of the filtered catalog (items naming at least one
tracked component), with no coverage requirement at all; `TFG-Alloy.py`
enumerates exactly the subsets of sizes 3 and 4 that cover every bound
component, regardless of its minimum fraction. -/
theorem c3_subset_enumeration :
    (∀ (items : List AItem) (B : List (String × ℚ × ℚ)) (maxTypes : ℕ)
       (sub : List AItem) (r : ℕ), 1 ≤ r → r ≤ maxTypes →
       sub ∈ combinations r (alloyFiltered items B) →
       sub ∈ alloyEnumerated items B maxTypes) ∧
    (∀ (titems : List TItem) (R : List (String × ℚ × ℚ)) (sub : List TItem),
       sub ∈ tfgEnumerated titems R ↔
         ((sub.length = 3 ∨ sub.length = 4) ∧ sub.Sublist titems ∧
          tfgCoversB R sub = true)) := by
  constructor
  · intro items B maxTypes sub r h1 h2 hsub
    unfold alloyEnumerated
    refine List.mem_flatMap.2 ⟨r - 1, List.mem_range.2 (by omega), ?_⟩
    have hr : r - 1 + 1 = r := by omega
    rw [hr]
    exact hsub
  · intro titems R sub
    unfold tfgEnumerated
    rw [List.mem_filter]
    constructor
    · rintro ⟨hmem, hcov⟩
      rcases List.mem_flatMap.1 hmem with ⟨r, hr, hc⟩
      rcases (mem_combinations _ _ _).1 hc with ⟨hs, hl⟩
      rcases List.mem_cons.1 hr with rfl | hr'
      · exact ⟨Or.inl hl, hs, hcov⟩
      · rcases List.mem_cons.1 hr' with rfl | h0
        · exact ⟨Or.inr hl, hs, hcov⟩
        · exact absurd h0 (List.not_mem_nil r)
    · rintro ⟨hlen, hs, hcov⟩
      refine ⟨List.mem_flatMap.2 ⟨sub.length, ?_, (mem_combinations _ _ _).2 ⟨hs, rfl⟩⟩, hcov⟩
      rcases hlen with h | h <;> rw [h] <;> simp

/-- C4 (amended): `TFG-Alloy.py` returns the stable ascending
`(diff, abundance, combo size, -total)` sort of all found solutions truncated
to the requested count, with `total_count` the full number found;
`alloy_calc.py` sorts only by `(score, scarcity)` — stable in emission
order — with no combo-size or total-mass tie-break, truncates to the
requested count and reports the full count. -/
theorem c4_ranking :
    (∀ (items : List AItem) (B : List (String × ℚ × ℚ)) (target allowance : ℚ)
       (maxTypes : ℕ) (pref : Bool) (top : ℕ),
       alloySearch items B target allowance maxTypes pref top
         = ((isort lexLe2 (alloySolutions items B target allowance maxTypes pref)).take top,
            (alloySolutions items B target allowance maxTypes pref).length) ∧
       List.Perm (isort lexLe2 (alloySolutions items B target allowance maxTypes pref))
         (alloySolutions items B target allowance maxTypes pref) ∧
       (isort lexLe2 (alloySolutions items B target allowance maxTypes pref)).Pairwise
         (fun a b => lexLe2 a b = true)) ∧
    (∀ (titems : List TItem) (target : ℤ) (R : List (String × ℚ × ℚ)) (topN : ℕ)
       (sols : List TSol), tfgSolutionsOpt titems target R = some sols →
       find_solutions titems target R topN
         = some ((isort lexLe4 sols).take topN, sols.length) ∧
       List.Perm (isort lexLe4 sols) sols ∧
       (isort lexLe4 sols).Pairwise (fun a b => lexLe4 a b = true)) := by
  constructor
  · intro items B target allowance maxTypes pref top
    exact ⟨rfl, isort_perm _ _, isort_pairwise _ lexLe2_total lexLe2_trans _⟩
  · intro titems target R topN sols hsols
    refine ⟨?_, isort_perm _ _, isort_pairwise _ lexLe4_total lexLe4_trans _⟩
    unfold find_solutions
    rw [hsols]

/-- C8 (amended): the scripts perform no input validation: a bound table
entry with `min` exceeding `max` by more than twice the tolerance is accepted
and the search still runs, legitimately returning an empty result, and the
loader keeps an all-zero composition unchanged instead of rejecting it. -/
theorem c8_no_validation :
    (∀ (items : List AItem) (B : List (String × ℚ × ℚ)) (target allowance : ℚ)
       (maxTypes : ℕ) (pref : Bool) (top : ℕ) (c : String) (lo hi : ℚ),
       (c, lo, hi) ∈ B → hi + tol < lo - tol →
       alloySearch items B target allowance maxTypes pref top = ([], 0)) ∧
    (∀ comp : List (String × ℚ), (comp.map (fun p => p.2)).sum ≤ 0 →
       normalizeComp comp = comp) := by
  constructor
  · intro items B target allowance maxTypes pref top c lo hi hb hbad
    have hempty : alloySolutions items B target allowance maxTypes pref = [] := by
      refine List.eq_nil_iff_forall_not_mem.2 (fun s hs => ?_)
      have hgood := (alloySolutions_good hs).2.2.2.1 (c, lo, hi) hb
      have h1 := hgood.1
      have h2 := hgood.2
      simp only at h1 h2
      linarith
    simp [alloySearch, hempty, isort]
  · intro comp h
    unfold normalizeComp
    rw [if_neg (not_lt.2 h)]

/-- C9 (amended): a request naming a component with a minimum fraction beyond
the tolerance that no catalog item contains yields the empty result with
`total_count = 0` — a legitimate value, not an error — in both scripts.
(Other unsatisfiable requests can instead crash `TFG-Alloy.py`, see the
counterexample.) -/
theorem c9_zero_result :
    (∀ (items : List AItem) (B : List (String × ℚ × ℚ)) (target allowance : ℚ)
       (maxTypes : ℕ) (pref : Bool) (top : ℕ) (c : String) (lo hi : ℚ),
       (c, lo, hi) ∈ B → tol < lo →
       (∀ it ∈ items, ∀ p ∈ it.comp, p.1 ≠ c) →
       alloySearch items B target allowance maxTypes pref top = ([], 0)) ∧
    (∀ (titems : List TItem) (target : ℤ) (R : List (String × ℚ × ℚ)) (topN : ℕ)
       (c : String) (lo hi : ℚ),
       (c, lo, hi) ∈ R → (∀ it ∈ titems, it.metal ≠ c) →
       find_solutions titems target R topN = some ([], 0)) := by
  constructor
  · intro items B target allowance maxTypes pref top c lo hi hb hlo habsent
    have hempty : alloySolutions items B target allowance maxTypes pref = [] := by
      refine List.eq_nil_iff_forall_not_mem.2 (fun s hs => ?_)
      rcases List.mem_flatMap.1 hs with ⟨combo, hcombo, hmem⟩
      have hcsub : ∀ it ∈ isort massDescLe combo, it ∈ items := by
        intro it hit
        have hit' : it ∈ combo := (isort_perm massDescLe combo).mem_iff.1 hit
        rcases List.mem_flatMap.1 hcombo with ⟨k, _, hck⟩
        rcases (mem_combinations _ _ _).1 hck with ⟨hsub, _⟩
        exact alloyFiltered_subset (hsub.subset hit')
      have hzero : lookupD s.perc c 0 = 0 :=
        dfs_perc_zero _ _ _ _ s (fun it hit => habsent it (hcsub it hit)) rfl hmem
      have hgood := (alloySolutions_good hs).2.2.2.1 (c, lo, hi) hb
      rw [hzero] at hgood
      have h1 := hgood.1
      simp only at h1
      linarith
    simp [alloySearch, hempty, isort]
  · intro titems target R topN c lo hi hc habsent
    have henum : tfgEnumerated titems R = [] := by
      unfold tfgEnumerated
      refine List.filter_eq_nil_iff.2 (fun combo hcombo => ?_)
      rcases List.mem_flatMap.1 hcombo with ⟨r, _, hcr⟩
      rcases (mem_combinations _ _ _).1 hcr with ⟨hsub, _⟩
      intro hcov
      unfold tfgCoversB at hcov
      rcases List.any_eq_true.1 (List.all_eq_true.1 hcov (c, lo, hi) hc) with ⟨it, hit, hmet⟩
      exact habsent it (hsub.subset hit) (by simpa using hmet)
    unfold find_solutions tfgSolutionsOpt
    rw [henum]
    simp [collectO, isort]

/-- C10: the count-assignment recursions of both scripts terminate: a fuel
budget exceeding the number of undecided positions always suffices, the fuel
variants agreeing with the total recursive definitions. -/
theorem c10_termination :
    (∀ (B : List (String × ℚ × ℚ)) (E : List String) (MIN MAX target : ℚ)
       (pref : Bool) (combo rem : List AItem) (fuel : ℕ) (counts : List ℕ)
       (mass : ℚ) (mb : String → ℚ), rem.length < fuel →
       dfsFuel B E MIN MAX target pref combo fuel rem counts mass mb
         = some (dfs B E MIN MAX target pref combo rem counts mass mb)) ∧
    (∀ (R : List (String × ℚ × ℚ)) (target : ℤ) (combo rem : List TItem)
       (fuel : ℕ) (counts : List ℤ) (mt : String → ℤ) (total : ℤ),
       rem.length < fuel →
       backtrackFuel R target combo fuel rem counts mt total
         = some (backtrack R target combo rem counts mt total)) :=
  ⟨fun _ _ _ _ _ _ _ rem fuel counts mass mb h => dfsFuel_eq rem fuel counts mass mb h,
   fun _ _ _ rem fuel counts mt total h => backtrackFuel_eq rem fuel counts mt total h⟩

/-! ### Witnesses and counterexamples on concrete inputs -/

section ConcreteEvaluation

attribute [local semireducible] Rat.add Rat.mul Rat.inv Rat.sub

/-- C1 counterexample: the TFG search at target 100 with bound
`Cu ∈ [0, 1/2]` emits a blend whose copper fraction is 1, far above
`max_frac + ε` — the terminal check compares absolute metal mass against
target-scaled bounds, not fractions of the actual total. -/
theorem c1_counterexample :
    (find_solutions tItems3 100 tRanges 10).map
      (fun p => p.1.any (fun s => decide ((1:ℚ)/2 + tol < lookupD s.pct "Cu" 0)))
      = some true := by decide

/-- C1 witness: a concretely emitted alloy_calc blend satisfying the amended
bound-satisfaction statement. -/
theorem c1_witness :
    solCu100 ∈ alloySolutions [itemCu100] aBounds01 100 144 1 true ∧
    ("Cu", (0:ℚ), (1:ℚ)) ∈ aBounds01 ∧
    ((0:ℚ) - tol ≤ lookupD solCu100.perc "Cu" 0 ∧
      lookupD solCu100.perc "Cu" 0 ≤ 1 + tol) :=
  ⟨by decide, by decide,
   c1_bound_satisfaction [itemCu100] aBounds01 100 144 1 true solCu100
     ("Cu", 0, 1) (by decide) (by decide)⟩

/-- C2 counterexample: the TFG search enforces no mass window at all — at
target 100 it emits a blend of total mass 0, outside the window even for a
generous tolerance of 50. -/
theorem c2_counterexample :
    (find_solutions tItems3 100 tRanges 10).map
      (fun p => p.1.any (fun s => decide (s.total < 100 - 50))) = some true := by decide

/-- C2 witness: a concretely emitted alloy_calc blend inside the mass
window. -/
theorem c2_witness :
    solCu100 ∈ alloySolutions [itemCu100] aBounds01 100 144 1 true ∧
    ((100:ℚ) - 144 ≤ solCu100.total ∧ solCu100.total ≤ 100 + 144) :=
  ⟨by decide, c2_mass_window [itemCu100] aBounds01 100 144 1 true solCu100 (by decide)⟩

/-- C3 counterexample: the subset `{CuItem, F}` covers the bound component Cu
(whose minimum fraction 1/5 is positive), has size 2 ≤ max_types = 2, yet
alloy_calc never runs count assignment on it: the filler item with empty
composition is filtered out of the catalog before enumeration. -/
theorem c3_counterexample :
    ([cuItemX, fillerItemX] : List AItem).length = 2 ∧
    cBoundsX.all (fun b => [cuItemX, fillerItemX].any
      (fun it => ((it.comp.find? (fun p => p.1 = b.1)).isSome : Bool))) = true ∧
    [cuItemX, fillerItemX] ∉ alloyEnumerated [cuItemX, fillerItemX] cBoundsX 2 :=
  ⟨rfl, by decide, by decide⟩

/-- C3 witness: a size-1 subset of the filtered catalog is enumerated. -/
theorem c3_witness :
    (1 ≤ 1 ∧ 1 ≤ 2) ∧
    [cuItemX] ∈ combinations 1 (alloyFiltered [cuItemX, fillerItemX] cBoundsX) ∧
    [cuItemX] ∈ alloyEnumerated [cuItemX, fillerItemX] cBoundsX 2 :=
  ⟨⟨le_refl 1, by omega⟩, by decide,
   c3_subset_enumeration.1 [cuItemX, fillerItemX] cBoundsX 2 [cuItemX] 1
     (le_refl 1) (by omega) (by decide)⟩

/-- C4 counterexample: on two blends tied in `(score, scarcity)`, alloy_calc
keeps emission order, so its ranked output is not sorted by the claimed
four-part key — the larger total (104) ought to precede the smaller (99). -/
theorem c4_counterexample :
    pairwiseLeB claimKeyLe (alloySearch aItemsC4 aBounds01 100 144 1 true 10).1
      = false := by decide

/-- C4 witness: the TFG ranking applied to a concrete seven-solution run. -/
theorem c4_witness :
    tfgSolutionsOpt tItems3 100 tRanges
      = some ((tfgSolutionsOpt tItems3 100 tRanges).getD []) ∧
    find_solutions tItems3 100 tRanges 10
      = some ((isort lexLe4 ((tfgSolutionsOpt tItems3 100 tRanges).getD [])).take 10,
              ((tfgSolutionsOpt tItems3 100 tRanges).getD []).length) :=
  ⟨by decide,
   (c4_ranking.2 tItems3 100 tRanges 10 ((tfgSolutionsOpt tItems3 100 tRanges).getD [])
     (by decide)).1⟩

/-- C5 witness: concrete overshoot and undershoot blends at raw distance 5
from target 100, with the overshoot blend strictly ahead. -/
theorem c5_witness :
    (solC5over ∈ alloySolutions aItemsC5 aBounds01 100 144 1 true ∧
     solC5under ∈ alloySolutions aItemsC5 aBounds01 100 144 1 true ∧
     (100:ℚ) ≤ solC5over.total ∧ solC5under.total < 100 ∧
     |solC5over.total - 100| = |solC5under.total - 100|) ∧
    (solC5over.score < solC5under.score ∧ lexLe2 solC5over solC5under = true ∧
     lexLe2 solC5under solC5over = false) :=
  ⟨⟨by decide, by decide, by decide, by decide, by decide⟩,
   (c5_overshoot_weighting aItemsC5 aBounds01 100 144 1 solC5over solC5under
     (by decide) (by decide) (by decide) (by decide) (by decide)).2.2⟩

/-- C6 counterexample: alloy_calc emits a blend taking 0 copies of a
zero-availability item; its stored scarcity is infinite, while the claim's
formula (infinite only when `count > 0`) gives the finite value 1. -/
theorem c6_counterexample :
    (alloySolutions aItemsC6 aBounds01 100 144 2 true).any
      (fun s => decide (s.scarcity = none) &&
        decide (claimScarcity s.combo s.counts = some 1)) = true := by decide

/-- C6 witness: a concretely emitted blend whose stored scarcity equals the
source formula. -/
theorem c6_witness :
    solCu100 ∈ alloySolutions [itemCu100] aBounds01 100 144 1 true ∧
    solCu100.scarcity = scarcityOf solCu100.combo solCu100.counts :=
  ⟨by decide,
   c6_scarcity_definition [itemCu100] aBounds01 100 144 1 true solCu100 (by decide)⟩

/-- C7 counterexample: the TFG search emits the all-zero assignment (total
mass 0) whenever every scaled minimum rounds to 0 — the zero-mass terminal
state is not rejected. -/
theorem c7_counterexample :
    (find_solutions tItems3 100 tRanges 10).map
      (fun p => p.1.any (fun s => decide (s.total = 0))) = some true := by decide

/-- C7 witness: a concretely emitted alloy_calc blend with positive total. -/
theorem c7_witness :
    solCu100 ∈ alloySolutions [itemCu100] aBounds01 100 144 1 true ∧
    0 < solCu100.total :=
  ⟨by decide,
   c7_zero_mass_rejection [itemCu100] aBounds01 100 144 1 true solCu100 (by decide)⟩

/-- C8 counterexample: with the malformed bound `Cu ∈ [3/4, 1/4]`
(min > max) the program does not fail fast: phase 1 still enumerates a
subset and the search returns a normal empty result; likewise the loader
keeps an all-zero composition unchanged instead of reporting it. -/
theorem c8_counterexample :
    alloyEnumerated [itemCu100] badBounds 1 ≠ [] ∧
    alloySearch [itemCu100] badBounds 100 144 1 true 10 = ([], 0) ∧
    normalizeComp [("Cu", 0)] = [("Cu", 0)] :=
  ⟨by decide, by decide, by decide⟩

/-- C8 witness: the amended no-validation statement at the malformed
fixture. -/
theorem c8_witness :
    (("Cu", (3:ℚ)/4, (1:ℚ)/4) ∈ badBounds ∧ (1:ℚ)/4 + tol < 3/4 - tol ∧
     alloySearch [itemCu100] badBounds 100 144 1 true 10 = ([], 0)) ∧
    (([("Cu", (0:ℚ))].map (fun p => p.2)).sum ≤ 0 ∧
     normalizeComp [("Cu", 0)] = [("Cu", 0)]) :=
  ⟨⟨by decide, by decide,
    c8_no_validation.1 [itemCu100] badBounds 100 144 1 true 10 "Cu" (3/4) (1/4)
      (by decide) (by decide)⟩,
   ⟨by decide, c8_no_validation.2 [("Cu", 0)] (by decide)⟩⟩

/-- C9 counterexample: the bound table `Cu, Zn ∈ [3/5, 1]` over `tItemsC9` is
unsatisfiable — exhaustively, no availability-respecting count assignment
(and hence no subset) puts both fractions inside their bounds even with the
tolerance — yet the TFG search does not return an empty result: the counts
`(6, 6, 0)` pass its absolute-mass terminal check and the abundance division
by the third item's `max_count = 0` raises an uncaught `ZeroDivisionError`,
modelled as `none`. -/
theorem c9_counterexample :
    (allCounts tItemsC9).all (fun cs => !claimSatisfiesT tItemsC9 rangesC9 cs) = true ∧
    find_solutions tItemsC9 10 rangesC9 10 = none := ⟨by decide, by decide⟩

/-- C9 witness: a zinc bound that no item can meet yields `([], 0)` from
alloy_calc, and a bismuth range absent from every item yields
`some ([], 0)` from the TFG search. -/
theorem c9_witness :
    (("Zn", (1:ℚ)/2, (1:ℚ)) ∈ zincBounds ∧ tol < (1:ℚ)/2 ∧
     alloySearch [itemCu100] zincBounds 100 144 1 true 10 = ([], 0)) ∧
    (("Bi", (1:ℚ)/2, (1:ℚ)) ∈ biRanges ∧
     find_solutions tItems3 100 biRanges 10 = some ([], 0)) :=
  ⟨⟨by decide, by decide,
    c9_zero_result.1 [itemCu100] zincBounds 100 144 1 true 10 "Zn" (1/2) 1
      (by decide) (by decide) (by decide)⟩,
   ⟨by decide,
    c9_zero_result.2 tItems3 100 biRanges 10 "Bi" (1/2) 1 (by decide) (by decide)⟩⟩

/-- C10 witness: the fuel bounds hold on concrete runs of both engines. -/
theorem c10_witness :
    (([itemCu100] : List AItem).length < 2 ∧
     dfsFuel aBounds01 ["Cu"] (-44) 244 100 true [itemCu100] 2 [itemCu100] [] 0 (fun _ => 0)
       = some (dfs aBounds01 ["Cu"] (-44) 244 100 true [itemCu100] [itemCu100] [] 0 (fun _ => 0))) ∧
    (tItems3.length < 4 ∧
     backtrackFuel tRanges 100 tItems3 4 tItems3 [] (fun _ => 0) 0
       = some (backtrack tRanges 100 tItems3 tItems3 [] (fun _ => 0) 0)) :=
  ⟨⟨by decide,
    c10_termination.1 aBounds01 ["Cu"] (-44) 244 100 true [itemCu100] [itemCu100] 2 [] 0
      (fun _ => 0) (by decide)⟩,
   ⟨by decide,
    c10_termination.2 tRanges 100 tItems3 tItems3 4 [] (fun _ => 0) 0 (by decide)⟩⟩

end ConcreteEvaluation

end Alloy
